import Mathlib

/-!
Verification of the batch-iteration data providers (`mlp/data_providers.py`).

The Python module is embedded shallowly:

* `DataProvider` becomes a Lean structure; its methods (`reset`, `shuffle`,
  `next`) become pure functions on that structure, with `next` returning an
  `Option` batch (`none` models the `StopIteration` end-of-epoch signal)
  together with the successor state.
* Python integers are `Int`; Python floor division `//` is `Int.fdiv`;
  Python/numpy basic slicing `xs[a:b]` is `pySlice` (negative indices wrap
  from the end, out-of-range bounds clamp).
* Exceptions raised during construction or encoding are modelled with
  `Except PyError`.
* `np.random.RandomState` is an external collaborator; only its contract is
  modelled (`RandomState`): a deterministic stream of index lists, advanced by
  each `permutation` call.  The hypothesis `ValidPerms` states the numpy
  contract that every draw is a permutation of `[0..n)`.
* Numeric data is modelled over `ℚ` (exact arithmetic); `np.std`, whose value
  involves a real square root, is an explicit function parameter of the
  Met Office pipeline — no statement below depends on its value.
-/

/-- Exception classes that the embedded operations can raise. -/
inductive PyError where
  | assertionError
  | zeroDivisionError
  | indexError
deriving DecidableEq

instance exceptDecidableEq {ε α : Type} [DecidableEq ε] [DecidableEq α] :
    DecidableEq (Except ε α)
  | .error a, .error b =>
    if h : a = b then .isTrue (by rw [h])
    else .isFalse (by intro hc; injection hc; contradiction)
  | .error _, .ok _ => .isFalse (fun hc => Except.noConfusion hc)
  | .ok _, .error _ => .isFalse (fun hc => Except.noConfusion hc)
  | .ok a, .ok b =>
    if h : a = b then .isTrue (by rw [h])
    else .isFalse (by intro hc; injection hc; contradiction)

/-- Resolve a Python slice bound: negative indices count from the end
(floored at 0), nonnegative indices clamp to the length. -/
def pySliceIdx (n : ℕ) (i : ℤ) : ℕ :=
  if i < 0 then n - (-i).toNat else min i.toNat n

/-- Python/numpy basic slicing `xs[a:b]` (step 1). -/
def pySlice {α : Type} (xs : List α) (a b : ℤ) : List α :=
  (xs.take (pySliceIdx xs.length b)).drop (pySliceIdx xs.length a)

/-- Numpy fancy indexing `xs[order]` for an index array `order`.  The
callers below only ever index with permutations of `[0..len xs)`, for which
the `default` fallback is never reached. -/
def npIndex {α : Type} [Inhabited α] (xs : List α) (order : List ℕ) : List α :=
  order.map (fun i => xs.getD i default)

/-- Contract model of `np.random.RandomState`: a deterministic stream of
index lists (`perms call_index n`), advanced by one on every `permutation`
call.  The generator itself is an external dependency of the repository;
only this contract is required. -/
structure RandomState where
  perms : ℕ → ℕ → List ℕ
  calls : ℕ

/-- `rng.permutation(n)`: one draw from the stream, advancing the state. -/
def RandomState.permutation (r : RandomState) (n : ℕ) : List ℕ × RandomState :=
  (r.perms r.calls n, ⟨r.perms, r.calls + 1⟩)

/-- The numpy contract: every draw of the stream is a permutation of
`[0..n)`. -/
def ValidPerms (p : ℕ → ℕ → List ℕ) : Prop :=
  ∀ k n, (p k n).Perm (List.range n)

/-- A concrete `RandomState` whose every draw is the identity permutation
(`List.range n`) — a valid random source, used for concrete instantiations. -/
def rngId : RandomState :=
  ⟨fun _ n => List.range n, 0⟩

/-- Modelled from the spec: `np.random.RandomState(DEFAULT_SEED)`, the
process-default deterministic random source substituted when `rng is None`
(`DEFAULT_SEED` lives in `mlp/__init__.py`, outside the provided sources).
The spec requires only that it is a fixed deterministic valid random source;
no statement below depends on which one. -/
def defaultRandomState : RandomState :=
  ⟨fun _ n => List.range n, 0⟩

/-- The `rng=None` default of the Python constructors. -/
def resolveRng : Option RandomState → RandomState
  | none => defaultRandomState
  | some r => r

/-- State of `DataProvider` (`mlp/data_providers.py`, lines 15-91). -/
structure DataProvider (α β : Type) where
  inputs : List α
  targets : List β
  batch_size : ℤ
  max_num_batches : ℤ
  num_batches : ℤ
  shuffle_order : Bool
  rng : RandomState
  curr_batch : ℤ

/-- `DataProvider.shuffle` (lines 72-76): draw one permutation of
`[0..len inputs)` and reorder both arrays by it. -/
def DataProvider.shuffle {α β : Type} [Inhabited α] [Inhabited β]
    (dp : DataProvider α β) : DataProvider α β :=
  let p := dp.rng.permutation dp.inputs.length
  { dp with
    inputs := npIndex dp.inputs p.1
    targets := npIndex dp.targets p.1
    rng := p.2 }

/-- `DataProvider.reset` (lines 66-70): zero the batch index, then shuffle
if shuffling is enabled. -/
def DataProvider.reset {α β : Type} [Inhabited α] [Inhabited β]
    (dp : DataProvider α β) : DataProvider α β :=
  let d := { dp with curr_batch := 0 }
  if dp.shuffle_order then d.shuffle else d

/-- `DataProvider.next` (lines 78-91).  `none` models `StopIteration`
(end of epoch): the provider is reset and no batch is returned; otherwise
the batch is the slice `[curr*batch_size, (curr+1)*batch_size)` of both
arrays and the index advances. -/
def DataProvider.next {α β : Type} [Inhabited α] [Inhabited β]
    (dp : DataProvider α β) : Option (List α × List β) × DataProvider α β :=
  if dp.curr_batch + 1 > dp.num_batches then
    (none, dp.reset)
  else
    (some (pySlice dp.inputs (dp.curr_batch * dp.batch_size)
             ((dp.curr_batch + 1) * dp.batch_size),
           pySlice dp.targets (dp.curr_batch * dp.batch_size)
             ((dp.curr_batch + 1) * dp.batch_size)),
     { dp with curr_batch := dp.curr_batch + 1 })

/-- `DataProvider.__init__` (lines 18-54).  The `assert` on
`max_num_batches` raises `AssertionError`; `inputs.shape[0] // batch_size`
raises `ZeroDivisionError` when `batch_size == 0`; otherwise `num_batches`
is derived and `reset()` runs as the final step. -/
def mkDataProvider {α β : Type} [Inhabited α] [Inhabited β]
    (inputs : List α) (targets : List β) (batch_size max_num_batches : ℤ)
    (shuffle_order : Bool) (rng : Option RandomState) :
    Except PyError (DataProvider α β) :=
  if max_num_batches = 0 ∨ max_num_batches < -1 then
    .error .assertionError
  else if batch_size = 0 then
    .error .zeroDivisionError
  else
    let possible_num_batches : ℤ := Int.fdiv (inputs.length : ℤ) batch_size
    let num_batches : ℤ :=
      if max_num_batches = -1 then possible_num_batches
      else min max_num_batches possible_num_batches
    .ok (DataProvider.reset
      ⟨inputs, targets, batch_size, max_num_batches, num_batches,
       shuffle_order, resolveRng rng, 0⟩)

/-- One `next` call, keeping only the successor state. -/
def stepProvider {α β : Type} [Inhabited α] [Inhabited β]
    (dp : DataProvider α β) : DataProvider α β :=
  (dp.next).2

/-- The provider state after `k` calls to `next`. -/
def afterK {α β : Type} [Inhabited α] [Inhabited β]
    (dp : DataProvider α β) : ℕ → DataProvider α β
  | 0 => dp
  | k + 1 => stepProvider (afterK dp k)

/-- The value returned by the `(k+1)`-st call to `next` (0-indexed). -/
def outputAt {α β : Type} [Inhabited α] [Inhabited β]
    (dp : DataProvider α β) (k : ℕ) : Option (List α × List β) :=
  ((afterK dp k).next).1

/- Helper lemmas about the embedding. -/

theorem fdiv_natCast (m n : ℕ) :
    Int.fdiv (m : ℤ) (n : ℤ) = ((m / n : ℕ) : ℤ) := by
  cases m with
  | zero => simp [Int.fdiv]
  | succ k => rfl

theorem reset_num_batches {α β : Type} [Inhabited α] [Inhabited β]
    (dp : DataProvider α β) : (dp.reset).num_batches = dp.num_batches := by
  unfold DataProvider.reset DataProvider.shuffle
  split <;> rfl

theorem reset_of_not_shuffle {α β : Type} [Inhabited α] [Inhabited β]
    (dp : DataProvider α β) (h : dp.shuffle_order = false) :
    dp.reset = { dp with curr_batch := 0 } := by
  unfold DataProvider.reset
  rw [h]
  simp

/-- C2: with `0 < batch_size`, the constructed provider satisfies
`num_batches = N // batch_size` when `max_num_batches = -1`, and
`min max_num_batches (N // batch_size)` otherwise; at most
`num_batches * batch_size` of the `N` rows are consumed per epoch, and when
`max_num_batches = -1` the dropped trailing remainder is shorter than one
batch. -/
theorem C2_num_batches_formula {α β : Type} [Inhabited α] [Inhabited β]
    (inputs : List α) (targets : List β) (bs mx : ℤ) (sh : Bool)
    (rng : Option RandomState) (dp : DataProvider α β)
    (hbs : 0 < bs)
    (h : mkDataProvider inputs targets bs mx sh rng = .ok dp) :
    (dp.num_batches =
      if mx = -1 then ((inputs.length / bs.toNat : ℕ) : ℤ)
      else min mx ((inputs.length / bs.toNat : ℕ) : ℤ))
    ∧ dp.num_batches * bs ≤ (inputs.length : ℤ)
    ∧ (mx = -1 → (inputs.length : ℤ) - dp.num_batches * bs < bs) := by
  unfold mkDataProvider at h
  split at h
  · exact absurd h (by simp)
  · split at h
    · exact absurd h (by simp)
    · have hdp : dp = DataProvider.reset
          ⟨inputs, targets, bs, mx,
           if mx = -1 then Int.fdiv (inputs.length : ℤ) bs
           else min mx (Int.fdiv (inputs.length : ℤ) bs),
           sh, resolveRng rng, 0⟩ := by
        exact (Except.ok.injEq _ _ ▸ h).symm
      have hfd : Int.fdiv (inputs.length : ℤ) bs
          = ((inputs.length / bs.toNat : ℕ) : ℤ) := by
        have hb : bs = ((bs.toNat : ℕ) : ℤ) := (Int.toNat_of_nonneg hbs.le).symm
        rw [hb]
        exact fdiv_natCast _ _
      have hnb : dp.num_batches =
          if mx = -1 then ((inputs.length / bs.toNat : ℕ) : ℤ)
          else min mx ((inputs.length / bs.toNat : ℕ) : ℤ) := by
        rw [hdp, reset_num_batches]
        simp only [hfd]
      refine ⟨hnb, ?_, ?_⟩
      · have hle : dp.num_batches ≤ ((inputs.length / bs.toNat : ℕ) : ℤ) := by
          rw [hnb]
          split
          · exact le_refl _
          · exact min_le_right _ _
        have hmul : dp.num_batches * bs
            ≤ ((inputs.length / bs.toNat : ℕ) : ℤ) * bs :=
          mul_le_mul_of_nonneg_right hle hbs.le
        refine hmul.trans ?_
        have hb : bs = ((bs.toNat : ℕ) : ℤ) := (Int.toNat_of_nonneg hbs.le).symm
        rw [hb]
        have := Nat.div_mul_le_self inputs.length bs.toNat
        exact_mod_cast this
      · intro hmx
        rw [hnb, if_pos hmx]
        have hbtn : ((bs.toNat : ℕ) : ℤ) = bs := Int.toNat_of_nonneg hbs.le
        have hbn : 0 < bs.toNat := by omega
        have hdm := Nat.div_add_mod inputs.length bs.toNat
        have hmod := Nat.mod_lt inputs.length hbn
        have h1 : (inputs.length : ℤ)
            = bs * ((inputs.length / bs.toNat : ℕ) : ℤ)
              + ((inputs.length % bs.toNat : ℕ) : ℤ) := by
          rw [← hbtn]
          exact_mod_cast hdm.symm
        have h2 : ((inputs.length % bs.toNat : ℕ) : ℤ) < bs := by
          rw [← hbtn]
          exact_mod_cast hmod
        linarith [h1, h2]

/-- C2 witness: a 7-row dataset with `batch_size = 2` and
`max_num_batches = 2` gives `num_batches = min 2 (7 / 2) = 2`, consuming at
most 4 of the 7 rows. -/
theorem C2_num_batches_formula_witness :
    (0 : ℤ) < 2
    ∧ ((⟨[0, 1, 2, 3, 4, 5, 6], [0, 1, 2, 3, 4, 5, 6], 2, 2, 2, false, rngId, 0⟩ :
          DataProvider ℚ ℚ).num_batches = 2)
    ∧ (⟨[0, 1, 2, 3, 4, 5, 6], [0, 1, 2, 3, 4, 5, 6], 2, 2, 2, false, rngId, 0⟩ :
          DataProvider ℚ ℚ).num_batches * 2
        ≤ (([0, 1, 2, 3, 4, 5, 6] : List ℚ).length : ℤ) := by
  have h := C2_num_batches_formula (α := ℚ) (β := ℚ)
    [0, 1, 2, 3, 4, 5, 6] [0, 1, 2, 3, 4, 5, 6] 2 2 false (some rngId)
    ⟨[0, 1, 2, 3, 4, 5, 6], [0, 1, 2, 3, 4, 5, 6], 2, 2, 2, false, rngId, 0⟩
    (by decide) rfl
  refine ⟨by decide, ?_, h.2.1⟩
  rw [h.1]
  decide

/-- C8 counterexample: `batch_size = -1 ≤ 0`, yet construction succeeds and
returns a fully-built provider (with `num_batches = -1`); the claim requires
construction to fail for every `batch_size ≤ 0`. -/
theorem C8_counterexample_negative_batch_size :
    mkDataProvider [(0 : ℚ)] [(0 : ℚ)] (-1) (-1) false (some rngId)
      = .ok ⟨[0], [0], -1, -1, -1, false, rngId, 0⟩ := rfl

/-- C8 amended: construction succeeds exactly when `max_num_batches` is `-1`
or positive and `batch_size ≠ 0`; an invalid `max_num_batches` raises the
`assert` (`AssertionError`), and with a valid `max_num_batches` a zero
`batch_size` raises `ZeroDivisionError` from `N // batch_size`.  Negative
`batch_size` values are accepted silently. -/
theorem C8_construction_failure_conditions {α β : Type} [Inhabited α] [Inhabited β]
    (inputs : List α) (targets : List β) (bs mx : ℤ) (sh : Bool)
    (rng : Option RandomState) :
    ((∃ dp, mkDataProvider inputs targets bs mx sh rng = .ok dp)
       ↔ (mx ≠ 0 ∧ ¬mx < -1 ∧ bs ≠ 0))
    ∧ (mx = 0 ∨ mx < -1 →
        mkDataProvider inputs targets bs mx sh rng = .error .assertionError)
    ∧ (mx ≠ 0 → ¬mx < -1 → bs = 0 →
        mkDataProvider inputs targets bs mx sh rng = .error .zeroDivisionError) := by
  refine ⟨⟨?_, ?_⟩, ?_, ?_⟩
  · rintro ⟨dp, hdp⟩
    unfold mkDataProvider at hdp
    split at hdp
    · exact absurd hdp (by simp)
    · split at hdp
      · exact absurd hdp (by simp)
      · constructor
        · intro h0
          rename_i hcond _
          exact hcond (Or.inl h0)
        constructor
        · intro hlt
          rename_i hcond _
          exact hcond (Or.inr hlt)
        · assumption
  · rintro ⟨h0, hlt, hbz⟩
    refine ⟨DataProvider.reset
      ⟨inputs, targets, bs, mx,
       if mx = -1 then Int.fdiv (inputs.length : ℤ) bs
       else min mx (Int.fdiv (inputs.length : ℤ) bs),
       sh, resolveRng rng, 0⟩, ?_⟩
    unfold mkDataProvider
    rw [if_neg (by tauto), if_neg hbz]
  · intro hbad
    unfold mkDataProvider
    rw [if_pos hbad]
  · intro h0 hlt hbz
    unfold mkDataProvider
    rw [if_neg (by tauto), if_pos hbz]

/-- C8 amended witness: concrete instances of all three cases
(success, bad `max_num_batches`, zero `batch_size`). -/
theorem C8_construction_failure_conditions_witness :
    ((∃ dp, mkDataProvider [(0 : ℚ)] [(0 : ℚ)] 1 (-1) false (some rngId) = .ok dp)
       ↔ ((-1 : ℤ) ≠ 0 ∧ ¬(-1 : ℤ) < -1 ∧ (1 : ℤ) ≠ 0))
    ∧ mkDataProvider [(0 : ℚ)] [(0 : ℚ)] 1 0 false (some rngId)
        = .error .assertionError
    ∧ mkDataProvider [(0 : ℚ)] [(0 : ℚ)] 0 (-1) false (some rngId)
        = .error .zeroDivisionError := by
  refine ⟨(C8_construction_failure_conditions [(0 : ℚ)] [(0 : ℚ)] 1 (-1) false
      (some rngId)).1, ?_, ?_⟩
  · exact (C8_construction_failure_conditions [(0 : ℚ)] [(0 : ℚ)] 1 0 false
      (some rngId)).2.1 (Or.inl rfl)
  · exact (C8_construction_failure_conditions [(0 : ℚ)] [(0 : ℚ)] 0 (-1) false
      (some rngId)).2.2 (by decide) (by decide) rfl

/-- Numpy single-axis index assignment `row[c] = v`: negative indices wrap
from the end of the axis; an index outside `[-len, len)` raises
`IndexError`. -/
def npSetIndex (row : List ℚ) (c : ℤ) (v : ℚ) : Except PyError (List ℚ) :=
  if c < -(row.length : ℤ) ∨ (row.length : ℤ) ≤ c then .error .indexError
  else if c < 0 then .ok (row.set ((row.length : ℤ) + c).toNat v)
  else .ok (row.set c.toNat v)

/-- `MNISTDataProvider.to_one_of_k` (lines 144-165): builds a zero matrix of
shape `(num_data, 10)` and, walking the targets in order, sets entry
`(i, c_i)` to 1 for the i-th target `c_i` using numpy indexing.  Each row is
touched exactly once, so the result maps each target to its own row; an
out-of-range target aborts the loop with `IndexError` at the first offending
element (the partially-filled matrix is never returned). -/
def to_one_of_k (int_targets : List ℤ) : Except PyError (List (List ℚ)) :=
  match int_targets with
  | [] => .ok []
  | c :: rest =>
    match npSetIndex (List.replicate 10 0) c 1 with
    | .error e => .error e
    | .ok row =>
      match to_one_of_k rest with
      | .error e => .error e
      | .ok rows => .ok (row :: rows)

/-- `np.argmax` on a 1-D array: the index of the first maximal element. -/
def npArgmax (xs : List ℚ) : ℕ :=
  (List.range xs.length).foldl
    (fun best i => if xs.getD best 0 < xs.getD i 0 then i else best) 0

theorem npSetIndex_error {row : List ℚ} {c : ℤ} {v : ℚ} {e : PyError}
    (h : npSetIndex row c v = .error e) : e = .indexError := by
  unfold npSetIndex at h
  split at h
  · injection h with h
    exact h.symm
  · split at h <;> exact absurd h (by simp)

theorem to_one_of_k_error_is_index {ts : List ℤ} {e : PyError}
    (h : to_one_of_k ts = .error e) : e = .indexError := by
  induction ts with
  | nil => exact absurd h (by simp [to_one_of_k])
  | cons c rest ih =>
    unfold to_one_of_k at h
    cases hset : npSetIndex (List.replicate 10 0) c 1 with
    | error e2 =>
      rw [hset] at h
      have h2 : (Except.error e2 : Except PyError (List (List ℚ))) = .error e := h
      injection h2 with h2
      exact h2 ▸ npSetIndex_error hset
    | ok row =>
      rw [hset] at h
      cases hrest : to_one_of_k rest with
      | error e3 =>
        rw [hrest] at h
        have h2 : (Except.error e3 : Except PyError (List (List ℚ))) = .error e := h
        injection h2 with h2
        exact ih (h2 ▸ hrest)
      | ok rows =>
        rw [hrest] at h
        have h2 : (Except.ok (row :: rows) : Except PyError (List (List ℚ)))
            = .error e := h
        exact absurd h2 (by simp)

theorem npSetIndex_replicate_ok (c : ℤ) (h1 : -10 ≤ c) (h2 : c < 10) :
    npSetIndex (List.replicate 10 0) c 1
      = .ok ((List.replicate 10 0).set
          (if c < 0 then (10 + c).toNat else c.toNat) 1) := by
  unfold npSetIndex
  simp only [List.length_replicate, Nat.cast_ofNat]
  rw [if_neg (by omega)]
  split
  · rfl
  · rfl

/-- C5 counterexample: the target `-1` lies outside `[0, 10)`, yet
`to_one_of_k` does not fail — numpy wraparound indexing silently encodes it
as class 9. -/
theorem C5_counterexample_negative_label_encoded :
    to_one_of_k [-1] = .ok [[0, 0, 0, 0, 0, 0, 0, 0, 0, 1]] := by decide

/-- C5 amended: `to_one_of_k` succeeds exactly when every target lies in the
numpy-indexable range `[-10, 10)` — so targets in `[-10, -1]` are silently
wrapped and encoded, not rejected — and fails with `IndexError` exactly when
some target lies outside `[-10, 10)`. -/
theorem C5_index_error_characterization (ts : List ℤ) :
    ((∃ rows, to_one_of_k ts = .ok rows) ↔ ∀ c ∈ ts, -10 ≤ c ∧ c < 10)
    ∧ (to_one_of_k ts = .error .indexError ↔ ∃ c ∈ ts, c < -10 ∨ 10 ≤ c) := by
  induction ts with
  | nil =>
    constructor
    · simp [to_one_of_k]
    · simp [to_one_of_k]
  | cons c rest ih =>
    by_cases hc : c < -10 ∨ 10 ≤ c
    · have hset : npSetIndex (List.replicate 10 0) c 1 = .error .indexError := by
        unfold npSetIndex
        simp only [List.length_replicate, Nat.cast_ofNat]
        rw [if_pos (by omega)]
      constructor
      · constructor
        · rintro ⟨rows, hrows⟩
          unfold to_one_of_k at hrows
          rw [hset] at hrows
          exact absurd hrows (by simp)
        · intro hall
          have := hall c (List.mem_cons_self _ _)
          omega
      · constructor
        · intro _
          exact ⟨c, List.mem_cons_self _ _, hc⟩
        · intro _
          unfold to_one_of_k
          rw [hset]
    · have h1 : -10 ≤ c := by omega
      have h2 : c < 10 := by omega
      have hset := npSetIndex_replicate_ok c h1 h2
      cases hrest : to_one_of_k rest with
      | error e =>
        have he := to_one_of_k_error_is_index hrest
        subst he
        have hcons : to_one_of_k (c :: rest) = .error .indexError := by
          unfold to_one_of_k
          rw [hset, hrest]
        constructor
        · constructor
          · rintro ⟨rows, hrows⟩
            rw [hcons] at hrows
            exact absurd hrows (by simp)
          · intro hall
            obtain ⟨c', hc', hbad⟩ := ih.2.mp hrest
            have := hall c' (List.mem_cons_of_mem _ hc')
            omega
        · constructor
          · intro _
            obtain ⟨c', hc', hbad⟩ := ih.2.mp hrest
            exact ⟨c', List.mem_cons_of_mem _ hc', hbad⟩
          · intro _
            exact hcons
      | ok rows =>
        have hcons : to_one_of_k (c :: rest)
            = .ok ((List.replicate 10 0).set
                (if c < 0 then (10 + c).toNat else c.toNat) 1 :: rows) := by
          unfold to_one_of_k
          rw [hset, hrest]
        constructor
        · constructor
          · intro _
            intro c' hc'
            rcases List.mem_cons.mp hc' with h | h
            · subst h
              exact ⟨h1, h2⟩
            · exact (ih.1.mp ⟨rows, hrest⟩) c' h
          · intro _
            exact ⟨_, hcons⟩
        · constructor
          · intro h
            rw [hcons] at h
            exact absurd h (by simp)
          · rintro ⟨c', hc', hbad⟩
            rcases List.mem_cons.mp hc' with h | h
            · subst h
              omega
            · have hall := ih.1.mp ⟨rows, hrest⟩ c' h
              omega

/-- C5 amended witness: `[3, -10]` is accepted (both targets numpy-indexable)
while `[3, 10]` fails with `IndexError`. -/
theorem C5_index_error_characterization_witness :
    ((∃ rows, to_one_of_k [3, -10] = .ok rows)
        ↔ ∀ c ∈ ([3, -10] : List ℤ), -10 ≤ c ∧ c < 10)
    ∧ (to_one_of_k [3, 10] = .error .indexError
        ↔ ∃ c ∈ ([3, 10] : List ℤ), c < -10 ∨ 10 ≤ c) :=
  ⟨(C5_index_error_characterization [3, -10]).1,
   (C5_index_error_characterization [3, 10]).2⟩

theorem sum_set_one (l : List ℚ) (k : ℕ) (hk : k < l.length)
    (h0 : ∀ x ∈ l, x = 0) : (l.set k 1).sum = 1 := by
  induction l generalizing k with
  | nil => exact absurd hk (by simp)
  | cons a l ih =>
    cases k with
    | zero =>
      have hzero : l.sum = 0 :=
        List.sum_eq_zero (fun x hx => h0 x (List.mem_cons_of_mem _ hx))
      simp [hzero]
    | succ k =>
      have ha : a = 0 := h0 a (List.mem_cons_self _ _)
      have hk2 : k < l.length := by simpa using hk
      have := ih k hk2 (fun x hx => h0 x (List.mem_cons_of_mem _ hx))
      simp [ha, this]

set_option maxRecDepth 20000 in
/-- C6: for every label `c` in `[0, 10)`, `to_one_of_k` encodes `c` as a
length-10 row of 0s and 1s summing to exactly 1, and `np.argmax` of that row
recovers `c`. -/
theorem C6_one_hot_round_trip (c : ℤ) (h0 : 0 ≤ c) (h10 : c < 10) :
    to_one_of_k [c] = .ok [(List.replicate 10 (0 : ℚ)).set c.toNat 1]
    ∧ ((List.replicate 10 (0 : ℚ)).set c.toNat 1).length = 10
    ∧ (∀ x ∈ (List.replicate 10 (0 : ℚ)).set c.toNat 1, x = 0 ∨ x = 1)
    ∧ ((List.replicate 10 (0 : ℚ)).set c.toNat 1).sum = 1
    ∧ npArgmax ((List.replicate 10 (0 : ℚ)).set c.toNat 1) = c.toNat := by
  interval_cases c <;>
    exact ⟨rfl, rfl, by decide, sum_set_one _ _ (by decide) (by decide), by decide⟩

/-- C6 witness: label 7 encodes to ten 0s with a 1 at index 7, and arg-max
recovers 7. -/
theorem C6_one_hot_round_trip_witness :
    (0 : ℤ) ≤ 7 ∧ (7 : ℤ) < 10
    ∧ ((List.replicate 10 (0 : ℚ)).set (7 : ℤ).toNat 1
        = [0, 0, 0, 0, 0, 0, 0, 1, 0, 0])
    ∧ (to_one_of_k [7] = .ok [(List.replicate 10 (0 : ℚ)).set (7 : ℤ).toNat 1]
       ∧ ((List.replicate 10 (0 : ℚ)).set (7 : ℤ).toNat 1).length = 10
       ∧ (∀ x ∈ (List.replicate 10 (0 : ℚ)).set (7 : ℤ).toNat 1, x = 0 ∨ x = 1)
       ∧ ((List.replicate 10 (0 : ℚ)).set (7 : ℤ).toNat 1).sum = 1
       ∧ npArgmax ((List.replicate 10 (0 : ℚ)).set (7 : ℤ).toNat 1) = (7 : ℤ).toNat) :=
  ⟨by decide, by decide, by decide, C6_one_hot_round_trip 7 (by decide) (by decide)⟩

theorem next_continue {α β : Type} [Inhabited α] [Inhabited β]
    (dp : DataProvider α β) (h : dp.curr_batch + 1 ≤ dp.num_batches) :
    dp.next = (some (pySlice dp.inputs (dp.curr_batch * dp.batch_size)
        ((dp.curr_batch + 1) * dp.batch_size),
      pySlice dp.targets (dp.curr_batch * dp.batch_size)
        ((dp.curr_batch + 1) * dp.batch_size)),
     { dp with curr_batch := dp.curr_batch + 1 }) := by
  unfold DataProvider.next
  rw [if_neg (by omega)]

theorem next_stop {α β : Type} [Inhabited α] [Inhabited β]
    (dp : DataProvider α β) (h : dp.num_batches < dp.curr_batch + 1) :
    dp.next = (none, dp.reset) := by
  unfold DataProvider.next
  rw [if_pos (by omega)]

theorem reset_literal_no_shuffle {α β : Type} [Inhabited α] [Inhabited β]
    (ins : List α) (tgs : List β) (bs mx nb : ℤ) (r : RandomState) (c : ℤ) :
    (DataProvider.reset (⟨ins, tgs, bs, mx, nb, false, r, c⟩ : DataProvider α β))
      = ⟨ins, tgs, bs, mx, nb, false, r, 0⟩ := rfl

theorem reset_literal_shuffle {α β : Type} [Inhabited α] [Inhabited β]
    (ins : List α) (tgs : List β) (bs mx nb : ℤ) (r : RandomState) (c : ℤ) :
    (DataProvider.reset (⟨ins, tgs, bs, mx, nb, true, r, c⟩ : DataProvider α β))
      = ⟨npIndex ins (r.perms r.calls ins.length),
         npIndex tgs (r.perms r.calls ins.length),
         bs, mx, nb, true, ⟨r.perms, r.calls + 1⟩, 0⟩ := rfl

theorem pySlice_nonneg {α : Type} (xs : List α) (a b : ℕ) (hab : a ≤ b) :
    pySlice xs (a : ℤ) (b : ℤ) = (xs.drop a).take (b - a) := by
  unfold pySlice pySliceIdx
  rw [if_neg (by omega), if_neg (by omega)]
  simp only [Int.toNat_natCast]
  rw [List.drop_take]
  by_cases ha : a ≤ xs.length
  · rw [min_eq_left ha]
    by_cases hb : b ≤ xs.length
    · rw [min_eq_left hb]
    · rw [min_eq_right (by omega)]
      have hlen : (xs.drop a).length = xs.length - a := List.length_drop _ _
      rw [List.take_of_length_le (by omega), List.take_of_length_le (by omega)]
  · rw [min_eq_right (by omega), min_eq_right (by omega)]
    rw [List.drop_length]
    rw [List.drop_eq_nil_of_le (by omega)]
    simp

theorem afterK_no_shuffle {α β : Type} [Inhabited α] [Inhabited β]
    (ins : List α) (tgs : List β) (bs mx nb : ℤ) (r : RandomState)
    (nbN : ℕ) (hnb : nb = (nbN : ℤ)) (i : ℕ) (hi : i ≤ nbN) :
    afterK (⟨ins, tgs, bs, mx, nb, false, r, 0⟩ : DataProvider α β) i
      = ⟨ins, tgs, bs, mx, nb, false, r, (i : ℤ)⟩ := by
  induction i with
  | zero => rfl
  | succ k ih =>
    have hk : k ≤ nbN := by omega
    show stepProvider (afterK _ k) = _
    rw [ih hk]
    unfold stepProvider
    rw [next_continue _ (by show ((k : ℕ) : ℤ) + 1 ≤ nb; omega)]
    have hc : ((k : ℕ) : ℤ) + 1 = (((k + 1) : ℕ) : ℤ) := by push_cast; ring
    show (⟨ins, tgs, bs, mx, nb, false, r, ((k : ℕ) : ℤ) + 1⟩ : DataProvider α β) = _
    rw [hc]

set_option maxHeartbeats 1000000 in
/-- C1: with shuffling disabled (and a positive batch size), the i-th of the
first `num_batches` calls to `next` returns exactly the contiguous rows
`[i*batch_size, (i+1)*batch_size)` of inputs and targets, every such slice
lies inside the valid index range, the following call signals end-of-epoch
(`none`) and returns the provider to its initial state (`curr_batch = 0`),
after which the identical cycle repeats; at most `num_batches * batch_size`
of the rows are ever read. -/
theorem C1_unshuffled_epoch_cycle {α β : Type} [Inhabited α] [Inhabited β]
    (inputs : List α) (targets : List β) (bs mx : ℤ) (rng : Option RandomState)
    (dp : DataProvider α β) (hbs : 0 < bs)
    (h : mkDataProvider inputs targets bs mx false rng = .ok dp) :
    (∀ i < dp.num_batches.toNat,
        outputAt dp i = some ((inputs.drop (i * bs.toNat)).take bs.toNat,
          (targets.drop (i * bs.toNat)).take bs.toNat)
        ∧ (i + 1) * bs.toNat ≤ inputs.length)
    ∧ outputAt dp dp.num_batches.toNat = none
    ∧ afterK dp (dp.num_batches.toNat + 1) = dp
    ∧ dp.curr_batch = 0
    ∧ dp.num_batches.toNat * bs.toNat ≤ inputs.length := by
  unfold mkDataProvider at h
  split at h
  · exact absurd h (by simp)
  · split at h
    · exact absurd h (by simp)
    · rename_i hvalid hbz
      have hdp : dp =
          ⟨inputs, targets, bs, mx,
           if mx = -1 then Int.fdiv (inputs.length : ℤ) bs
           else min mx (Int.fdiv (inputs.length : ℤ) bs),
           false, resolveRng rng, 0⟩ := by
        have h2 := (Except.ok.injEq _ _ ▸ h).symm
        rw [h2, reset_literal_no_shuffle]
      push_neg at hvalid
      obtain ⟨hv1, hv2⟩ := hvalid
      have hbsc : bs = ((bs.toNat : ℕ) : ℤ) := (Int.toNat_of_nonneg hbs.le).symm
      have hposs : Int.fdiv (inputs.length : ℤ) bs
          = ((inputs.length / bs.toNat : ℕ) : ℤ) := by
        rw [hbsc]
        exact fdiv_natCast _ _
      have hnbval : dp.num_batches
          = if mx = -1 then ((inputs.length / bs.toNat : ℕ) : ℤ)
            else min mx ((inputs.length / bs.toNat : ℕ) : ℤ) := by
        rw [hdp]
        simp only [hposs]
      have hnn : 0 ≤ dp.num_batches := by
        rw [hnbval]
        by_cases hm : mx = -1
        · rw [if_pos hm]
          exact Int.natCast_nonneg _
        · rw [if_neg hm]
          exact le_min (by omega) (Int.natCast_nonneg _)
      have hnbN : dp.num_batches = ((dp.num_batches.toNat : ℕ) : ℤ) :=
        (Int.toNat_of_nonneg hnn).symm
      have hle2 : dp.num_batches ≤ ((inputs.length / bs.toNat : ℕ) : ℤ) := by
        rw [hnbval]
        split
        · exact le_refl _
        · exact min_le_right _ _
      have hle : dp.num_batches.toNat ≤ inputs.length / bs.toNat :=
        Int.toNat_le.mpr hle2
      have hdmul : inputs.length / bs.toNat * bs.toNat ≤ inputs.length :=
        Nat.div_mul_le_self _ _
      have hdp2 : dp = ⟨inputs, targets, bs, mx, dp.num_batches, false,
          resolveRng rng, 0⟩ := by
        rw [hdp]
      have hafter : ∀ i, i ≤ dp.num_batches.toNat →
          afterK dp i = ⟨inputs, targets, bs, mx, dp.num_batches, false,
            resolveRng rng, (i : ℤ)⟩ := by
        intro i hi
        rw [hdp2]
        exact afterK_no_shuffle inputs targets bs mx dp.num_batches
          (resolveRng rng) dp.num_batches.toNat hnbN i hi
      refine ⟨?_, ?_, ?_, ?_, ?_⟩
      · intro i hi
        have hrange : (i + 1) * bs.toNat ≤ inputs.length := by
          refine le_trans ?_ hdmul
          exact Nat.mul_le_mul_right _ (by omega)
        refine ⟨?_, hrange⟩
        unfold outputAt
        rw [hafter i (le_of_lt hi)]
        rw [next_continue _ (by show (i : ℤ) + 1 ≤ dp.num_batches; omega)]
        show some (pySlice inputs ((i : ℤ) * bs) (((i : ℤ) + 1) * bs),
          pySlice targets ((i : ℤ) * bs) (((i : ℤ) + 1) * bs)) = _
        have hcast1 : (i : ℤ) * bs = ((i * bs.toNat : ℕ) : ℤ) := by
          push_cast
          rw [Int.toNat_of_nonneg hbs.le]
        have hcast2 : ((i : ℤ) + 1) * bs = (((i + 1) * bs.toNat : ℕ) : ℤ) := by
          push_cast
          rw [Int.toNat_of_nonneg hbs.le]
        have hab : i * bs.toNat ≤ (i + 1) * bs.toNat :=
          Nat.mul_le_mul_right _ (by omega)
        rw [hcast1, hcast2, pySlice_nonneg _ _ _ hab, pySlice_nonneg _ _ _ hab,
          Nat.succ_mul, Nat.add_sub_cancel_left]
      · unfold outputAt
        rw [hafter dp.num_batches.toNat (le_refl _)]
        rw [next_stop _ (by
          show dp.num_batches < (dp.num_batches.toNat : ℤ) + 1
          omega)]
      · show stepProvider (afterK dp dp.num_batches.toNat) = dp
        rw [hafter dp.num_batches.toNat (le_refl _)]
        unfold stepProvider
        rw [next_stop _ (by
          show dp.num_batches < (dp.num_batches.toNat : ℤ) + 1
          omega)]
        show DataProvider.reset
          (⟨inputs, targets, bs, mx, dp.num_batches, false, resolveRng rng,
            ((dp.num_batches.toNat : ℕ) : ℤ)⟩ : DataProvider α β) = dp
        rw [reset_literal_no_shuffle]
        exact hdp2.symm
      · rw [hdp]
      · refine le_trans ?_ hdmul
        exact Nat.mul_le_mul_right _ hle

/-- The spec's running example dataset: seven rows `0..6`. -/
def l7q : List ℚ := [0, 1, 2, 3, 4, 5, 6]

/-- The provider built over `l7q` with `batch_size = 2`,
`max_num_batches = -1`, shuffling disabled. -/
def dpC1 : DataProvider ℚ ℚ := ⟨l7q, l7q, 2, -1, 3, false, rngId, 0⟩

/-- C1 witness: the spec example `batch_size = 2, N = 7,
max_num_batches = -1` — three batches of rows `(0,1), (2,3), (4,5)`, row 6
never appears, and the fourth call signals end-of-epoch and restores the
initial state. -/
theorem C1_unshuffled_epoch_cycle_witness :
    (0 : ℤ) < 2
    ∧ mkDataProvider l7q l7q 2 (-1) false (some rngId) = .ok dpC1
    ∧ ((∀ i < dpC1.num_batches.toNat,
          outputAt dpC1 i = some ((l7q.drop (i * (2 : ℤ).toNat)).take (2 : ℤ).toNat,
            (l7q.drop (i * (2 : ℤ).toNat)).take (2 : ℤ).toNat)
          ∧ (i + 1) * (2 : ℤ).toNat ≤ l7q.length)
       ∧ outputAt dpC1 dpC1.num_batches.toNat = none
       ∧ afterK dpC1 (dpC1.num_batches.toNat + 1) = dpC1
       ∧ dpC1.curr_batch = 0
       ∧ dpC1.num_batches.toNat * (2 : ℤ).toNat ≤ l7q.length)
    ∧ outputAt dpC1 0 = some ([0, 1], [0, 1])
    ∧ outputAt dpC1 1 = some ([2, 3], [2, 3])
    ∧ outputAt dpC1 2 = some ([4, 5], [4, 5])
    ∧ outputAt dpC1 3 = none := by
  have hmk : mkDataProvider l7q l7q 2 (-1) false (some rngId) = .ok dpC1 := rfl
  exact ⟨by decide, hmk,
    C1_unshuffled_epoch_cycle l7q l7q 2 (-1) (some rngId) dpC1 (by decide) hmk,
    by decide, by decide, by decide, by decide⟩

/-- C9: two providers constructed from identical inputs, targets, batch
size, batch bound, shuffle flag and random state (or both from the default
seed) are equal, hence produce identical batch sequences for every step
count — the whole construction and iteration pipeline is a pure function of
its arguments. -/
theorem C9_identical_construction_identical_batches {α β : Type}
    [Inhabited α] [Inhabited β]
    (ins1 ins2 : List α) (tgs1 tgs2 : List β) (bs1 bs2 mx1 mx2 : ℤ)
    (sh1 sh2 : Bool) (rng1 rng2 : Option RandomState)
    (dp1 dp2 : DataProvider α β)
    (h1 : mkDataProvider ins1 tgs1 bs1 mx1 sh1 rng1 = .ok dp1)
    (h2 : mkDataProvider ins2 tgs2 bs2 mx2 sh2 rng2 = .ok dp2)
    (hins : ins1 = ins2) (htgs : tgs1 = tgs2) (hbs : bs1 = bs2)
    (hmx : mx1 = mx2) (hsh : sh1 = sh2) (hrng : rng1 = rng2) :
    ∀ k, outputAt dp1 k = outputAt dp2 k := by
  subst hins
  subst htgs
  subst hbs
  subst hmx
  subst hsh
  subst hrng
  rw [h1] at h2
  injection h2 with h2
  subst h2
  intro k
  rfl

/-- C9 witness: the two halves of the determinism statement instantiated
with the same concrete shuffled construction. -/
theorem C9_identical_construction_identical_batches_witness :
    mkDataProvider l7q l7q 2 (-1) true (some rngId)
      = .ok ⟨l7q, l7q, 2, -1, 3, true, ⟨rngId.perms, 1⟩, 0⟩
    ∧ ∀ k, outputAt (⟨l7q, l7q, 2, -1, 3, true, ⟨rngId.perms, 1⟩, 0⟩ :
        DataProvider ℚ ℚ) k
      = outputAt (⟨l7q, l7q, 2, -1, 3, true, ⟨rngId.perms, 1⟩, 0⟩ :
        DataProvider ℚ ℚ) k :=
  ⟨rfl,
   C9_identical_construction_identical_batches l7q l7q l7q l7q 2 2 (-1) (-1)
     true true (some rngId) (some rngId)
     ⟨l7q, l7q, 2, -1, 3, true, ⟨rngId.perms, 1⟩, 0⟩
     ⟨l7q, l7q, 2, -1, 3, true, ⟨rngId.perms, 1⟩, 0⟩
     rfl rfl rfl rfl rfl rfl rfl rfl⟩

/-- C10 counterexample (claim as stated): on a one-row dataset with
shuffling enabled, the only permutation of `[0..1)` is the identity, so
after construction the dataset is exactly the construction-time order
`[37]` even though `shuffle_order = true` — the first epoch's order can
coincide with the construction-time order when shuffling is on. -/
theorem C10_counterexample_shuffle_preserves_order :
    mkDataProvider [(37 : ℚ)] [(5 : ℚ)] 1 (-1) true (some rngId)
      = .ok ⟨[37], [5], 1, -1, 1, true, ⟨rngId.perms, 1⟩, 0⟩ := rfl

/-- C10 amended: construction ends with a `reset()`: afterwards
`curr_batch = 0`; with shuffling disabled the dataset is exactly the
construction-time order with the RNG untouched; with shuffling enabled
exactly one permutation has been drawn from the RNG and both arrays
reordered by it before the first `next` call — an order that may or may not
coincide with the construction-time order. -/
theorem C10_constructor_resets {α β : Type} [Inhabited α] [Inhabited β]
    (inputs : List α) (targets : List β) (bs mx : ℤ) (sh : Bool)
    (rng : Option RandomState) (dp : DataProvider α β)
    (h : mkDataProvider inputs targets bs mx sh rng = .ok dp) :
    dp.curr_batch = 0
    ∧ (sh = false → dp.inputs = inputs ∧ dp.targets = targets
        ∧ dp.rng = resolveRng rng)
    ∧ (sh = true →
        dp.inputs = npIndex inputs
          ((resolveRng rng).perms (resolveRng rng).calls inputs.length)
        ∧ dp.targets = npIndex targets
          ((resolveRng rng).perms (resolveRng rng).calls inputs.length)
        ∧ dp.rng = ⟨(resolveRng rng).perms, (resolveRng rng).calls + 1⟩) := by
  unfold mkDataProvider at h
  split at h
  · exact absurd h (by simp)
  · split at h
    · exact absurd h (by simp)
    · have hdp := (Except.ok.injEq _ _ ▸ h).symm
      cases sh with
      | false =>
        rw [reset_literal_no_shuffle] at hdp
        rw [hdp]
        exact ⟨rfl, fun _ => ⟨rfl, rfl, rfl⟩, fun hc => absurd hc (by simp)⟩
      | true =>
        rw [reset_literal_shuffle] at hdp
        rw [hdp]
        exact ⟨rfl, fun hc => absurd hc (by simp), fun _ => ⟨rfl, rfl, rfl⟩⟩

/-- C10 amended witness: a two-row shuffled construction with the identity
random source: `curr_batch = 0`, the arrays reordered by the single drawn
permutation, and the RNG advanced by one draw. -/
theorem C10_constructor_resets_witness :
    (mkDataProvider [(10 : ℚ), 20] [(1 : ℚ), 2] 1 (-1) true (some rngId)
      = .ok ⟨[10, 20], [1, 2], 1, -1, 2, true, ⟨rngId.perms, 1⟩, 0⟩)
    ∧ ((⟨[10, 20], [1, 2], 1, -1, 2, true, ⟨rngId.perms, 1⟩, 0⟩ :
          DataProvider ℚ ℚ).curr_batch = 0
      ∧ (true = false →
          (⟨[10, 20], [1, 2], 1, -1, 2, true, ⟨rngId.perms, 1⟩, 0⟩ :
            DataProvider ℚ ℚ).inputs = [10, 20]
          ∧ (⟨[10, 20], [1, 2], 1, -1, 2, true, ⟨rngId.perms, 1⟩, 0⟩ :
            DataProvider ℚ ℚ).targets = [1, 2]
          ∧ (⟨[10, 20], [1, 2], 1, -1, 2, true, ⟨rngId.perms, 1⟩, 0⟩ :
            DataProvider ℚ ℚ).rng = resolveRng (some rngId))
      ∧ (true = true →
          (⟨[10, 20], [1, 2], 1, -1, 2, true, ⟨rngId.perms, 1⟩, 0⟩ :
            DataProvider ℚ ℚ).inputs
            = npIndex [10, 20] ((resolveRng (some rngId)).perms
                (resolveRng (some rngId)).calls ([(10 : ℚ), 20]).length)
          ∧ (⟨[10, 20], [1, 2], 1, -1, 2, true, ⟨rngId.perms, 1⟩, 0⟩ :
            DataProvider ℚ ℚ).targets
            = npIndex [1, 2] ((resolveRng (some rngId)).perms
                (resolveRng (some rngId)).calls ([(10 : ℚ), 20]).length)
          ∧ (⟨[10, 20], [1, 2], 1, -1, 2, true, ⟨rngId.perms, 1⟩, 0⟩ :
            DataProvider ℚ ℚ).rng
            = ⟨(resolveRng (some rngId)).perms,
               (resolveRng (some rngId)).calls + 1⟩)) := by
  have hmk : mkDataProvider [(10 : ℚ), 20] [(1 : ℚ), 2] 1 (-1) true (some rngId)
      = .ok ⟨[10, 20], [1, 2], 1, -1, 2, true, ⟨rngId.perms, 1⟩, 0⟩ := rfl
  exact ⟨hmk, C10_constructor_resets [(10 : ℚ), 20] [(1 : ℚ), 2] 1 (-1) true
    (some rngId) ⟨[10, 20], [1, 2], 1, -1, 2, true, ⟨rngId.perms, 1⟩, 0⟩ hmk⟩

/-- The mutating operations a consumer can invoke on a provider. -/
inductive ProviderOp where
  | reset
  | shuffle
  | next

/-- Apply one operation to the provider state (`next` keeps the successor
state, discarding any returned batch). -/
def applyOp {α β : Type} [Inhabited α] [Inhabited β]
    (dp : DataProvider α β) : ProviderOp → DataProvider α β
  | .reset => dp.reset
  | .shuffle => dp.shuffle
  | .next => (dp.next).2

/-- Apply a sequence of operations, left to right. -/
def applyOps {α β : Type} [Inhabited α] [Inhabited β]
    (dp : DataProvider α β) : List ProviderOp → DataProvider α β
  | [] => dp
  | op :: rest => applyOps (applyOp dp op) rest

theorem map_getD_range {α : Type} [Inhabited α] (l : List α) :
    (List.range l.length).map (fun i => l.getD i default) = l := by
  induction l with
  | nil => rfl
  | cons a l ih =>
    show (List.range (l.length + 1)).map (fun i => (a :: l).getD i default)
      = a :: l
    rw [List.range_succ_eq_map, List.map_cons, List.map_map]
    have hcomp : ((fun i => (a :: l).getD i default) ∘ Nat.succ)
        = fun i => l.getD i default := by
      funext i
      rfl
    rw [hcomp, ih]
    rfl

theorem zip_getD_of_lt {α β : Type} [Inhabited α] [Inhabited β]
    (xs : List α) (ys : List β) (h : xs.length = ys.length) (i : ℕ)
    (hi : i < xs.length) :
    (xs.zip ys).getD i default = (xs.getD i default, ys.getD i default) := by
  induction xs generalizing ys i with
  | nil => exact absurd hi (by simp)
  | cons x xs ih =>
    cases ys with
    | nil => exact absurd h (by simp)
    | cons y ys =>
      cases i with
      | zero => rfl
      | succ j =>
        have h2 : xs.length = ys.length := by simpa using h
        have hj : j < xs.length := by simpa using hi
        exact ih ys h2 j hj

theorem npIndex_zip {α β : Type} [Inhabited α] [Inhabited β]
    (xs : List α) (ys : List β) (ord : List ℕ) (h : xs.length = ys.length)
    (hord : ∀ i ∈ ord, i < xs.length) :
    (npIndex xs ord).zip (npIndex ys ord)
      = ord.map (fun i => (xs.zip ys).getD i default) := by
  unfold npIndex
  rw [List.zip_map']
  exact List.map_congr_left
    (fun i hi => (zip_getD_of_lt xs ys h i (hord i hi)).symm)

theorem shuffle_invariant {α β : Type} [Inhabited α] [Inhabited β]
    (dp : DataProvider α β) (hv : ValidPerms dp.rng.perms)
    (hlen : dp.inputs.length = dp.targets.length) :
    ((dp.shuffle).inputs.zip (dp.shuffle).targets).Perm
      (dp.inputs.zip dp.targets)
    ∧ (dp.shuffle).inputs.length = dp.inputs.length
    ∧ (dp.shuffle).targets.length = dp.targets.length
    ∧ (dp.shuffle).rng.perms = dp.rng.perms := by
  have hord : (dp.rng.perms dp.rng.calls dp.inputs.length).Perm
      (List.range dp.inputs.length) := hv _ _
  have hlt : ∀ i ∈ dp.rng.perms dp.rng.calls dp.inputs.length,
      i < dp.inputs.length := by
    intro i hi
    have := hord.mem_iff.mp hi
    simpa using this
  refine ⟨?_, ?_, ?_, rfl⟩
  · show ((npIndex dp.inputs (dp.rng.perms dp.rng.calls dp.inputs.length)).zip
        (npIndex dp.targets (dp.rng.perms dp.rng.calls dp.inputs.length))).Perm
      (dp.inputs.zip dp.targets)
    rw [npIndex_zip dp.inputs dp.targets _ hlen hlt]
    have hzlen : (dp.inputs.zip dp.targets).length = dp.inputs.length := by
      rw [List.length_zip, hlen, min_self]
    have hmap : (List.range dp.inputs.length).map
        (fun i => (dp.inputs.zip dp.targets).getD i default)
        = dp.inputs.zip dp.targets := by
      rw [← hzlen]
      exact map_getD_range _
    have hperm2 : ((List.range dp.inputs.length).map
        (fun i => (dp.inputs.zip dp.targets).getD i default)).Perm
        (dp.inputs.zip dp.targets) := by
      rw [hmap]
    exact (hord.map _).trans hperm2
  · show (npIndex dp.inputs
        (dp.rng.perms dp.rng.calls dp.inputs.length)).length = dp.inputs.length
    unfold npIndex
    rw [List.length_map, hord.length_eq, List.length_range]
  · show (npIndex dp.targets
        (dp.rng.perms dp.rng.calls dp.inputs.length)).length = dp.targets.length
    unfold npIndex
    rw [List.length_map, hord.length_eq, List.length_range, hlen]

theorem reset_invariant {α β : Type} [Inhabited α] [Inhabited β]
    (dp : DataProvider α β) (hv : ValidPerms dp.rng.perms)
    (hlen : dp.inputs.length = dp.targets.length) :
    ((dp.reset).inputs.length = (dp.reset).targets.length)
    ∧ (((dp.reset).inputs.zip (dp.reset).targets).Perm
        (dp.inputs.zip dp.targets))
    ∧ (dp.reset).rng.perms = dp.rng.perms := by
  by_cases hs : dp.shuffle_order
  · have hres : dp.reset = DataProvider.shuffle { dp with curr_batch := 0 } := by
      unfold DataProvider.reset
      rw [if_pos hs]
    rw [hres]
    obtain ⟨hperm, hl1, hl2, hr⟩ :=
      shuffle_invariant { dp with curr_batch := 0 } hv hlen
    exact ⟨hl1.trans (hlen.trans hl2.symm), hperm, hr⟩
  · have hres : dp.reset = { dp with curr_batch := 0 } := by
      unfold DataProvider.reset
      rw [if_neg hs]
    rw [hres]
    exact ⟨hlen, List.Perm.refl _, rfl⟩

theorem next_invariant {α β : Type} [Inhabited α] [Inhabited β]
    (dp : DataProvider α β) (hv : ValidPerms dp.rng.perms)
    (hlen : dp.inputs.length = dp.targets.length) :
    (((dp.next).2).inputs.length = ((dp.next).2).targets.length)
    ∧ ((((dp.next).2).inputs.zip ((dp.next).2).targets).Perm
        (dp.inputs.zip dp.targets))
    ∧ ((dp.next).2).rng.perms = dp.rng.perms := by
  by_cases hc : dp.curr_batch + 1 > dp.num_batches
  · have h2 : (dp.next).2 = dp.reset := by
      unfold DataProvider.next
      rw [if_pos hc]
    rw [h2]
    exact reset_invariant dp hv hlen
  · have h2 : (dp.next).2 = { dp with curr_batch := dp.curr_batch + 1 } := by
      unfold DataProvider.next
      rw [if_neg hc]
    rw [h2]
    exact ⟨hlen, List.Perm.refl _, rfl⟩

theorem applyOp_invariant {α β : Type} [Inhabited α] [Inhabited β]
    (dp : DataProvider α β) (op : ProviderOp) (hv : ValidPerms dp.rng.perms)
    (hlen : dp.inputs.length = dp.targets.length) :
    ((applyOp dp op).inputs.length = (applyOp dp op).targets.length)
    ∧ (((applyOp dp op).inputs.zip (applyOp dp op).targets).Perm
        (dp.inputs.zip dp.targets))
    ∧ (applyOp dp op).rng.perms = dp.rng.perms := by
  cases op with
  | reset => exact reset_invariant dp hv hlen
  | shuffle =>
    obtain ⟨hperm, hl1, hl2, hr⟩ := shuffle_invariant dp hv hlen
    exact ⟨hl1.trans (hlen.trans hl2.symm), hperm, hr⟩
  | next => exact next_invariant dp hv hlen

theorem applyOps_invariant {α β : Type} [Inhabited α] [Inhabited β]
    (dp : DataProvider α β) (ops : List ProviderOp)
    (hv : ValidPerms dp.rng.perms)
    (hlen : dp.inputs.length = dp.targets.length) :
    ((applyOps dp ops).inputs.length = (applyOps dp ops).targets.length)
    ∧ (((applyOps dp ops).inputs.zip (applyOps dp ops).targets).Perm
        (dp.inputs.zip dp.targets)) := by
  induction ops generalizing dp with
  | nil => exact ⟨hlen, List.Perm.refl _⟩
  | cons op rest ih =>
    obtain ⟨hl, hp, hr⟩ := applyOp_invariant dp op hv hlen
    have hv2 : ValidPerms (applyOp dp op).rng.perms := by
      rw [hr]
      exact hv
    obtain ⟨ihl, ihp⟩ := ih (applyOp dp op) hv2 hl
    exact ⟨ihl, ihp.trans hp⟩

/-- C3: `shuffle` draws a single permutation and reorders inputs and
targets by that same permutation, so under the RNG contract (`ValidPerms`)
every sequence of operations preserves the pairing invariant: input and
target arrays keep equal lengths, and the multiset of (input, target) pairs
— each original i-th input still paired with the original i-th target — is
exactly permuted, never broken. -/
theorem C3_pairing_invariant {α β : Type} [Inhabited α] [Inhabited β]
    (dp : DataProvider α β) (ops : List ProviderOp)
    (hv : ValidPerms dp.rng.perms)
    (hlen : dp.inputs.length = dp.targets.length) :
    ((applyOps dp ops).inputs.length = (applyOps dp ops).targets.length)
    ∧ (((applyOps dp ops).inputs.zip (applyOps dp ops).targets).Perm
        (dp.inputs.zip dp.targets))
    ∧ (dp.shuffle).inputs
        = npIndex dp.inputs (dp.rng.perms dp.rng.calls dp.inputs.length)
    ∧ (dp.shuffle).targets
        = npIndex dp.targets (dp.rng.perms dp.rng.calls dp.inputs.length) :=
  ⟨(applyOps_invariant dp ops hv hlen).1,
   (applyOps_invariant dp ops hv hlen).2, rfl, rfl⟩

/-- C3 witness: a concrete provider, shuffled, stepped and reset; the pair
multiset `[(1,3), (2,4)]` survives untouched. -/
theorem C3_pairing_invariant_witness :
    ValidPerms (⟨[(1 : ℚ), 2], [(3 : ℚ), 4], 1, -1, 2, true, rngId, 0⟩ :
        DataProvider ℚ ℚ).rng.perms
    ∧ ([(1 : ℚ), 2].length = [(3 : ℚ), 4].length)
    ∧ ((applyOps (⟨[(1 : ℚ), 2], [(3 : ℚ), 4], 1, -1, 2, true, rngId, 0⟩ :
          DataProvider ℚ ℚ) [.shuffle, .next, .reset]).inputs.length
        = (applyOps (⟨[(1 : ℚ), 2], [(3 : ℚ), 4], 1, -1, 2, true, rngId, 0⟩ :
          DataProvider ℚ ℚ) [.shuffle, .next, .reset]).targets.length)
    ∧ (((applyOps (⟨[(1 : ℚ), 2], [(3 : ℚ), 4], 1, -1, 2, true, rngId, 0⟩ :
          DataProvider ℚ ℚ) [.shuffle, .next, .reset]).inputs.zip
        (applyOps (⟨[(1 : ℚ), 2], [(3 : ℚ), 4], 1, -1, 2, true, rngId, 0⟩ :
          DataProvider ℚ ℚ) [.shuffle, .next, .reset]).targets).Perm
        ([(1 : ℚ), 2].zip [(3 : ℚ), 4])) := by
  have hv : ValidPerms rngId.perms := fun _ _ => List.Perm.refl _
  have h := C3_pairing_invariant
    (⟨[(1 : ℚ), 2], [(3 : ℚ), 4], 1, -1, 2, true, rngId, 0⟩ : DataProvider ℚ ℚ)
    [.shuffle, .next, .reset] hv rfl
  exact ⟨hv, rfl, h.1, h.2.1⟩

/-- The sentinel value `-99.99` marking a missing observation in the Met
Office series. -/
def metSentinel : ℚ := -(9999 / 100)

/-- `np.mean` over a 1-D array, exact over `ℚ`. -/
def npMean (xs : List ℚ) : ℚ := xs.sum / (xs.length : ℚ)

/-- `MetOfficeDataProvider.__init__` lines 197-199: `self.data = data[:, 2:]`
(drop the two leading columns of each row), then
`self.data[self.data != -99.99].flatten()` — the boolean mask keeps the
non-sentinel entries in row-major order as a 1-D series. -/
def metFiltered (data : List (List ℚ)) : List ℚ :=
  ((data.map (fun row => row.drop 2)).flatten).filter (fun x => x ≠ metSentinel)

/-- Lines 201-203: mean and standard deviation are computed on the filtered
series, and the z-score normalization is applied to that same *filtered*
series (`self.normalized_data_z = (self.filtered_data - mean) / std_dev`).
`np.std` computes a real square root, so it enters the model as the explicit
external function `stdFn`; no statement below depends on its value. -/
def metNormalizedZ (stdFn : List ℚ → ℚ) (data : List (List ℚ)) : List ℚ :=
  (metFiltered data).map
    (fun x => (x - npMean (metFiltered data)) / stdFn (metFiltered data))

/-- Lines 205-208: drop the `length % window_size` trailing entries via the
Python slice `[:-no_of_omit]` (taken only when `no_of_omit != 0`). -/
def metTruncated (w : ℕ) (stdFn : List ℚ → ℚ) (data : List (List ℚ)) :
    List ℚ :=
  let nz := metNormalizedZ stdFn data
  let no_of_omit := nz.length % w
  if no_of_omit ≠ 0 then pySlice nz 0 (-(no_of_omit : ℤ)) else nz

/-- `np.reshape(..., (-1, window_size))`: consecutive non-overlapping
chunks of length `w` (the callers guarantee `w` divides the length). -/
def toWindows (w : ℕ) (xs : List ℚ) : List (List ℚ) :=
  if w = 0 ∨ xs = [] then [] else xs.take w :: toWindows w (xs.drop w)
termination_by xs.length
decreasing_by
  rename_i h
  push_neg at h
  have h3 : 0 < xs.length := List.length_pos.mpr h.2
  simp only [List.length_drop]
  omega

/-- Lines 209-211: the windowed 2-D array. -/
def metWindowed (w : ℕ) (stdFn : List ℚ → ℚ) (data : List (List ℚ)) :
    List (List ℚ) :=
  toWindows w (metTruncated w stdFn data)

/-- Line 214: `inputs = self.windowed_data[:, :window_size-1]`. -/
def metInputs (w : ℕ) (stdFn : List ℚ → ℚ) (data : List (List ℚ)) :
    List (List ℚ) :=
  (metWindowed w stdFn data).map (fun row => row.take (w - 1))

/-- Line 216: `targets = self.windowed_data[:, -1]` (last column). -/
def metTargets (w : ℕ) (stdFn : List ℚ → ℚ) (data : List (List ℚ)) :
    List ℚ :=
  (metWindowed w stdFn data).map (fun row => row.getLastD 0)

/-- `MetOfficeDataProvider.__init__` (lines 171-220): assert
`window_size > 1`, build the windowed dataset from the loaded matrix
`data`, and initialise the base provider with it.  File loading
(`np.loadtxt`) is the external collaborator that produces `data`. -/
def mkMetOfficeDataProvider (window_size : ℤ) (data : List (List ℚ))
    (stdFn : List ℚ → ℚ) (batch_size max_num_batches : ℤ) (sh : Bool)
    (rng : Option RandomState) : Except PyError (DataProvider (List ℚ) ℚ) :=
  if ¬window_size > 1 then .error .assertionError
  else
    mkDataProvider (metInputs window_size.toNat stdFn data)
      (metTargets window_size.toNat stdFn data) batch_size max_num_batches
      sh rng

/-- The spec's §4.3 (steps 1-2) version of the normalization, written from
the spec's words for refinement comparison: z-score normalize the *full*
unfiltered series (sentinel entries included) using the mean/std computed
from the filtered view. -/
def metNormalizedZFullSpec (stdFn : List ℚ → ℚ) (data : List (List ℚ)) :
    List ℚ :=
  ((data.map (fun row => row.drop 2)).flatten).map
    (fun x => (x - npMean (metFiltered data)) / stdFn (metFiltered data))

theorem toWindows_nil (w : ℕ) : toWindows w [] = [] := by
  rw [toWindows]
  simp

theorem toWindows_cons (w : ℕ) (hw : w ≠ 0) (xs : List ℚ) (hxs : xs ≠ []) :
    toWindows w xs = xs.take w :: toWindows w (xs.drop w) := by
  rw [toWindows]
  rw [if_neg (by simp [hw, hxs])]

theorem toWindows_eq (w : ℕ) (hw : 0 < w) :
    ∀ (n : ℕ) (xs : List ℚ), xs.length = n → w ∣ n →
      toWindows w xs
        = (List.range (n / w)).map (fun j => (xs.drop (j * w)).take w) := by
  intro n
  induction n using Nat.strong_induction_on with
  | _ n ih =>
    intro xs hlen hdvd
    by_cases hempty : xs = []
    · subst hempty
      simp at hlen
      subst hlen
      rw [toWindows_nil]
      simp
    · have hpos : 0 < xs.length := List.length_pos.mpr hempty
      have hge : w ≤ n := Nat.le_of_dvd (by omega) hdvd
      have hdrop : (xs.drop w).length = n - w := by
        rw [List.length_drop, hlen]
      have hdvd2 : w ∣ (n - w) := Nat.dvd_sub' hdvd dvd_rfl
      have hstep := ih (n - w) (Nat.sub_lt (by omega) hw) (xs.drop w) hdrop hdvd2
      rw [toWindows_cons w (by omega) xs hempty, hstep]
      rw [Nat.div_eq_sub_div hw hge, List.range_succ_eq_map, List.map_cons,
        List.map_map]
      congr 1
      · rw [Nat.zero_mul, List.drop_zero]
      · refine List.map_congr_left ?_
        intro j hj
        show ((xs.drop w).drop (j * w)).take w
          = (xs.drop (Nat.succ j * w)).take w
        rw [List.drop_drop]
        have hidx : w + j * w = Nat.succ j * w := by
          rw [Nat.succ_mul]
          omega
        rw [hidx]

theorem getD_take (l : List ℚ) (d : ℚ) :
    ∀ n i, i < n → (l.take n).getD i d = l.getD i d := by
  induction l with
  | nil =>
    intro n i h
    rw [List.take_nil]
  | cons a t ih =>
    intro n i h
    cases n with
    | zero => omega
    | succ m =>
      cases i with
      | zero => rfl
      | succ j =>
        rw [List.take_succ_cons, List.getD_cons_succ, List.getD_cons_succ]
        exact ih m j (by omega)

theorem getD_drop (l : List ℚ) (d : ℚ) :
    ∀ n i, (l.drop n).getD i d = l.getD (n + i) d := by
  induction l with
  | nil =>
    intro n i
    rw [List.drop_nil, List.getD_nil, List.getD_nil]
  | cons a t ih =>
    intro n i
    cases n with
    | zero => rw [List.drop_zero, Nat.zero_add]
    | succ m =>
      have h1 : m + 1 + i = (m + i) + 1 := by omega
      rw [List.drop_succ_cons, h1, List.getD_cons_succ]
      exact ih m i

theorem getD_default_irrel (l : List ℚ) :
    ∀ i d1 d2, i < l.length → l.getD i d1 = l.getD i d2 := by
  induction l with
  | nil =>
    intro i d1 d2 h
    exact absurd h (by simp)
  | cons a t ih =>
    intro i d1 d2 h
    cases i with
    | zero => rw [List.getD_cons_zero, List.getD_cons_zero]
    | succ j =>
      rw [List.getD_cons_succ, List.getD_cons_succ]
      exact ih j d1 d2 (by simpa using h)

theorem getLastD_eq_getD (l : List ℚ) :
    ∀ d, l ≠ [] → l.getLastD d = l.getD (l.length - 1) d := by
  induction l with
  | nil =>
    intro d h
    exact absurd rfl h
  | cons a t ih =>
    intro d h
    cases t with
    | nil => rfl
    | cons b u =>
      rw [List.getLastD_cons]
      rw [ih a (by simp)]
      show (b :: u).getD ((b :: u).length - 1) a
        = (a :: b :: u).getD ((a :: b :: u).length - 1) d
      have h1 : (a :: b :: u).length - 1 = ((b :: u).length - 1) + 1 := by
        simp
      rw [h1, List.getD_cons_succ]
      exact getD_default_irrel _ _ a d (by simp)

theorem getD_map_range {α : Type} (n j : ℕ) (f : ℕ → α) (d : α) (hj : j < n) :
    ((List.range n).map f).getD j d = f j := by
  have hlen : j < ((List.range n).map f).length := by simpa using hj
  rw [List.getD_eq_getElem _ _ hlen]
  simp

theorem pySlice_neg_stop {α : Type} (xs : List α) (m : ℕ) (hm : 0 < m) :
    pySlice xs 0 (-(m : ℤ)) = xs.take (xs.length - m) := by
  unfold pySlice pySliceIdx
  rw [if_pos (by omega : -(m : ℤ) < 0), if_neg (by omega : ¬(0 : ℤ) < 0)]
  simp

theorem metTruncated_eq (w : ℕ) (stdFn : List ℚ → ℚ) (data : List (List ℚ)) :
    metTruncated w stdFn data
      = (metNormalizedZ stdFn data).take
          ((metNormalizedZ stdFn data).length
            - (metNormalizedZ stdFn data).length % w) := by
  show (if (metNormalizedZ stdFn data).length % w ≠ 0
      then pySlice (metNormalizedZ stdFn data) 0
        (-(((metNormalizedZ stdFn data).length % w : ℕ) : ℤ))
      else metNormalizedZ stdFn data) = _
  by_cases hom : (metNormalizedZ stdFn data).length % w = 0
  · rw [if_neg (by simp [hom])]
    rw [hom, Nat.sub_zero, List.take_length]
  · rw [if_pos hom]
    exact pySlice_neg_stop _ _ (Nat.pos_of_ne_zero hom)

set_option maxHeartbeats 1000000 in
/-- C7: for `window_size = w > 1`, with `L` the length of the normalized
series actually windowed, the dataset has exactly `L / w` rows; row `j`'s
window is the contiguous block `normalized[j*w:(j+1)*w]`, its input the
first `w-1` entries of the block and its target the block's last entry
`normalized[j*w + (w-1)]`; the `L % w` trailing entries are dropped by the
truncation; and the Met Office constructor hands exactly these arrays to
the generic provider. -/
theorem C7_windowing_shape (w : ℕ) (stdFn : List ℚ → ℚ)
    (data : List (List ℚ)) (hw : 1 < w) :
    (metWindowed w stdFn data).length = (metNormalizedZ stdFn data).length / w
    ∧ (metInputs w stdFn data).length = (metNormalizedZ stdFn data).length / w
    ∧ (metTargets w stdFn data).length = (metNormalizedZ stdFn data).length / w
    ∧ (∀ j, j < (metNormalizedZ stdFn data).length / w →
        (metWindowed w stdFn data).getD j []
          = ((metNormalizedZ stdFn data).drop (j * w)).take w
        ∧ (metInputs w stdFn data).getD j []
          = ((metNormalizedZ stdFn data).drop (j * w)).take (w - 1)
        ∧ (metTargets w stdFn data).getD j 0
          = (metNormalizedZ stdFn data).getD (j * w + (w - 1)) 0)
    ∧ metTruncated w stdFn data
        = (metNormalizedZ stdFn data).take
            ((metNormalizedZ stdFn data).length
              - (metNormalizedZ stdFn data).length % w)
    ∧ (∀ bs mx sh rng,
        mkMetOfficeDataProvider (w : ℤ) data stdFn bs mx sh rng
          = mkDataProvider (metInputs w stdFn data)
              (metTargets w stdFn data) bs mx sh rng) := by
  have hw0 : 0 < w := by omega
  have htr := metTruncated_eq w stdFn data
  have hmod := Nat.div_add_mod (metNormalizedZ stdFn data).length w
  have hmodlt := Nat.mod_lt (metNormalizedZ stdFn data).length hw0
  have htl : (metTruncated w stdFn data).length
      = w * ((metNormalizedZ stdFn data).length / w) := by
    rw [htr, List.length_take]
    have hle : (metNormalizedZ stdFn data).length
        - (metNormalizedZ stdFn data).length % w
        ≤ (metNormalizedZ stdFn data).length := Nat.sub_le _ _
    rw [min_eq_left hle]
    omega
  have hdvd : w ∣ (metTruncated w stdFn data).length := by
    rw [htl]
    exact dvd_mul_right _ _
  have hwin := toWindows_eq w hw0 (metTruncated w stdFn data).length
    (metTruncated w stdFn data) rfl hdvd
  have hquot : (metTruncated w stdFn data).length / w
      = (metNormalizedZ stdFn data).length / w := by
    rw [htl]
    exact Nat.mul_div_cancel_left _ hw0
  have hcomm : ((metNormalizedZ stdFn data).length / w) * w
      = w * ((metNormalizedZ stdFn data).length / w) := Nat.mul_comm _ _
  have hwj : ∀ j, j < (metNormalizedZ stdFn data).length / w →
      ((metTruncated w stdFn data).drop (j * w)).take w
        = ((metNormalizedZ stdFn data).drop (j * w)).take w := by
    intro j hj
    rw [htr, List.drop_take, List.take_take]
    have hj1 : (j + 1) * w ≤ ((metNormalizedZ stdFn data).length / w) * w :=
      Nat.mul_le_mul_right _ (by omega)
    have hsucc : (j + 1) * w = j * w + w := Nat.succ_mul _ _
    congr 1
    omega
  have hjle : ∀ j, j < (metNormalizedZ stdFn data).length / w →
      j * w + w ≤ (metNormalizedZ stdFn data).length := by
    intro j hj
    have hj1 : (j + 1) * w ≤ ((metNormalizedZ stdFn data).length / w) * w :=
      Nat.mul_le_mul_right _ (by omega)
    have hsucc : (j + 1) * w = j * w + w := Nat.succ_mul _ _
    omega
  have hinp : metInputs w stdFn data
      = (List.range ((metNormalizedZ stdFn data).length / w)).map
          (fun j => (((metTruncated w stdFn data).drop (j * w)).take w).take
            (w - 1)) := by
    unfold metInputs metWindowed
    rw [hwin, hquot, List.map_map]
    rfl
  have htgt : metTargets w stdFn data
      = (List.range ((metNormalizedZ stdFn data).length / w)).map
          (fun j => (((metTruncated w stdFn data).drop (j * w)).take
            w).getLastD 0) := by
    unfold metTargets metWindowed
    rw [hwin, hquot, List.map_map]
    rfl
  have hwin2 : metWindowed w stdFn data
      = (List.range ((metNormalizedZ stdFn data).length / w)).map
          (fun j => ((metTruncated w stdFn data).drop (j * w)).take w) := by
    unfold metWindowed
    rw [hwin, hquot]
  refine ⟨?_, ?_, ?_, ?_, htr, ?_⟩
  · rw [hwin2, List.length_map, List.length_range]
  · rw [hinp, List.length_map, List.length_range]
  · rw [htgt, List.length_map, List.length_range]
  · intro j hj
    refine ⟨?_, ?_, ?_⟩
    · rw [hwin2, getD_map_range _ _ _ _ hj]
      exact hwj j hj
    · rw [hinp, getD_map_range _ _ _ _ hj, hwj j hj, List.take_take,
        min_eq_left (by omega)]
    · rw [htgt, getD_map_range _ _ _ _ hj, hwj j hj]
      have hlenw : (((metNormalizedZ stdFn data).drop (j * w)).take w).length
          = w := by
        rw [List.length_take, List.length_drop]
        have := hjle j hj
        rw [min_eq_left (by omega)]
      have hne : ((metNormalizedZ stdFn data).drop (j * w)).take w ≠ [] := by
        intro hnil
        rw [hnil] at hlenw
        simp at hlenw
        omega
      rw [getLastD_eq_getD _ 0 hne, hlenw]
      rw [getD_take _ _ w (w - 1) (by omega), getD_drop]
  · intro bs mx sh rng
    unfold mkMetOfficeDataProvider
    rw [if_neg (by push_neg; exact_mod_cast hw)]
    simp only [Int.toNat_natCast]

/-- A sentinel-free data matrix whose post-`[:, 2:]` series is the spec's
windowing example `[1,2,3,4,5,6,7]`. -/
def dataC7 : List (List ℚ) := [[0, 0, 1, 2, 3, 4, 5, 6, 7]]

/-- C7 witness: the spec example — a series of length 7 with
`window_size = 3` gives `7 / 3 = 2` windows, the 7 % 3 = 1 trailing entry
dropped, each input of length 2 and each target the window's third entry. -/
theorem C7_windowing_shape_witness :
    1 < 3
    ∧ ((metWindowed 3 (fun _ => 1) dataC7).length
        = (metNormalizedZ (fun _ => 1) dataC7).length / 3
      ∧ (metInputs 3 (fun _ => 1) dataC7).length
        = (metNormalizedZ (fun _ => 1) dataC7).length / 3
      ∧ (metTargets 3 (fun _ => 1) dataC7).length
        = (metNormalizedZ (fun _ => 1) dataC7).length / 3
      ∧ (∀ j, j < (metNormalizedZ (fun _ => 1) dataC7).length / 3 →
          (metWindowed 3 (fun _ => 1) dataC7).getD j []
            = ((metNormalizedZ (fun _ => 1) dataC7).drop (j * 3)).take 3
          ∧ (metInputs 3 (fun _ => 1) dataC7).getD j []
            = ((metNormalizedZ (fun _ => 1) dataC7).drop (j * 3)).take (3 - 1)
          ∧ (metTargets 3 (fun _ => 1) dataC7).getD j 0
            = (metNormalizedZ (fun _ => 1) dataC7).getD (j * 3 + (3 - 1)) 0)
      ∧ metTruncated 3 (fun _ => 1) dataC7
          = (metNormalizedZ (fun _ => 1) dataC7).take
              ((metNormalizedZ (fun _ => 1) dataC7).length
                - (metNormalizedZ (fun _ => 1) dataC7).length % 3)
      ∧ (∀ bs mx sh rng,
          mkMetOfficeDataProvider ((3 : ℕ) : ℤ) dataC7 (fun _ => 1) bs mx sh rng
            = mkDataProvider (metInputs 3 (fun _ => 1) dataC7)
                (metTargets 3 (fun _ => 1) dataC7) bs mx sh rng))
    ∧ (metNormalizedZ (fun _ => 1) dataC7).length = 7 := by
  refine ⟨by decide, C7_windowing_shape 3 (fun _ => 1) dataC7 (by decide), ?_⟩
  have hfilt : metFiltered dataC7 = [1, 2, 3, 4, 5, 6, 7] := by
    unfold metFiltered dataC7
    norm_num [List.filter_cons, List.filter_nil, metSentinel]
  unfold metNormalizedZ
  rw [hfilt]
  rfl

/-- A data matrix with one sentinel entry among four observations, for the
C4 counterexample. -/
def dataC4 : List (List ℚ) := [[0, 0, 1, metSentinel, 3, 5]]

/-- C4 counterexample: the code normalizes (and then windows) the
sentinel-*filtered* series, not the full series the claim describes: with
one sentinel among four retained columns the series that is windowed has 3
entries while the spec's full-series pipeline has 4, and the two pipelines
produce different series at this input. -/
theorem C4_counterexample_filtered_not_full :
    (metNormalizedZ (fun _ => 1) dataC4).length = 3
    ∧ (metNormalizedZFullSpec (fun _ => 1) dataC4).length = 4
    ∧ metNormalizedZ (fun _ => 1) dataC4
        ≠ metNormalizedZFullSpec (fun _ => 1) dataC4 := by
  have hfilt : metFiltered dataC4 = [1, 3, 5] := by
    unfold metFiltered dataC4
    norm_num [List.filter_cons, List.filter_nil, metSentinel]
  have h3 : (metNormalizedZ (fun _ => 1) dataC4).length = 3 := by
    unfold metNormalizedZ
    rw [hfilt]
    rfl
  have h4 : (metNormalizedZFullSpec (fun _ => 1) dataC4).length = 4 := by
    unfold metNormalizedZFullSpec dataC4
    simp
  refine ⟨h3, h4, ?_⟩
  intro heq
  rw [heq] at h3
  exact absurd (h3.symm.trans h4) (by decide)

/-- C4 amended: the normalized series that is subsequently truncated and
windowed is the *filtered* series — it has exactly as many entries as the
sentinel-filtered view, and every one of its entries is the z-score (with
filtered-view statistics) of a non-sentinel entry of the raw series;
sentinel-derived values do not remain in the windowed series. -/
theorem C4_filtered_series_is_windowed (stdFn : List ℚ → ℚ)
    (data : List (List ℚ)) :
    (metNormalizedZ stdFn data).length = (metFiltered data).length
    ∧ (∀ y ∈ metNormalizedZ stdFn data, ∃ x,
        x ∈ (data.map (fun row => row.drop 2)).flatten ∧ x ≠ metSentinel
        ∧ y = (x - npMean (metFiltered data)) / stdFn (metFiltered data)) := by
  constructor
  · simp [metNormalizedZ]
  · intro y hy
    obtain ⟨x, hx, hxy⟩ := List.mem_map.mp hy
    have hx2 := List.mem_filter.mp hx
    refine ⟨x, hx2.1, ?_, hxy.symm⟩
    exact of_decide_eq_true hx2.2

/-- C4 amended witness: on `dataC4` the windowed series has as many entries
as the filtered view, and each entry derives from a non-sentinel raw
entry. -/
theorem C4_filtered_series_is_windowed_witness :
    (metNormalizedZ (fun _ => 1) dataC4).length = (metFiltered dataC4).length
    ∧ (∀ y ∈ metNormalizedZ (fun _ => 1) dataC4, ∃ x,
        x ∈ (dataC4.map (fun row => row.drop 2)).flatten ∧ x ≠ metSentinel
        ∧ y = (x - npMean (metFiltered dataC4)) / (fun _ => (1 : ℚ))
            (metFiltered dataC4)) :=
  C4_filtered_series_is_windowed (fun _ => 1) dataC4
